import Mathlib

/-!
# Verification of the AIService streaming JSON decoder

A shallow embedding of `services/aiService.js` (class `AIService`): the
stream-buffer decoder `processStreamBuffer`, the content extractor
`extractContentFromJSON`, the finalize-time parser `tryParseCompleteJSON`,
the generic recursive walk of `processCompleteResponse`, and the
data/end stream handlers of `streamGenerateContent`, together with
theorems settling the specification claims about them.

JavaScript strings are modelled as `List Char`; `JSON.parse` is modelled
by an executable recursive-descent parser over a JSON value type `JVal`
that mirrors ECMAScript `JSON.parse` semantics (duplicate keys: later
value wins, first position kept; whole input must be consumed up to
trailing whitespace).  Thrown-and-caught exceptions are modelled with
`Except` / `Option`.
-/

/-- A JSON value as produced by `JSON.parse`.  Numbers keep their source
lexeme: no claim inspects numeric magnitude, only truthiness. -/
inductive JVal where
  | jnull
  | jbool (b : Bool)
  | jnum (lexeme : String)
  | jstr (s : String)
  | jarr (elems : List JVal)
  | jobj (fields : List (String × JVal))
deriving Repr

/-- A JSON number lexeme denotes zero iff its mantissa (part before any
exponent marker) contains no nonzero digit; JS treats `0`, `-0`, `0.00`,
`0e5` as falsy. -/
def numIsZero (lexeme : String) : Bool :=
  (lexeme.takeWhile (fun c => c != 'e' && c != 'E')).all
    (fun c => !(c.isDigit && c != '0'))

/-- JavaScript truthiness of a JSON-derived value: `null`, `false`,
numeric zero and the empty string are falsy; every object and array is
truthy. -/
def truthy : JVal → Bool
  | .jnull => false
  | .jbool b => b
  | .jnum l => !(numIsZero l)
  | .jstr s => !s.isEmpty
  | .jarr _ => true
  | .jobj _ => true

/-- Property access `v.k` on a JSON-derived value; `none` models
`undefined`.  After `JSON.parse` object keys are unique (later duplicate
wins during parsing), so plain lookup suffices. -/
def getProp : JVal → String → Option JVal
  | .jobj fields, k => fields.lookup k
  | _, _ => none

/-- JavaScript string coercion of a JSON-derived value, as used by the
`+=` concatenation and the template literal in the source.  Arrays join
their elements with commas (`null` contributing the empty string);
number lexemes stand in for number-to-string formatting. -/
def jsToString : JVal → String
  | .jnull => "null"
  | .jbool true => "true"
  | .jbool false => "false"
  | .jnum l => l
  | .jstr s => s
  | .jarr xs => String.intercalate "," (xs.map (fun x => match x with
      | .jnull => ""
      | .jstr s => s
      | .jnum l => l
      | .jbool true => "true"
      | .jbool false => "false"
      | _ => "[object Object]"))
  | .jobj _ => "[object Object]"

/-! ## A model of `JSON.parse` -/

/-- JSON whitespace characters. -/
def isJsonWs (c : Char) : Bool :=
  c == ' ' || c == '\t' || c == '\n' || c == '\r'

/-- Skip leading JSON whitespace. -/
def skipWs (cs : List Char) : List Char := cs.dropWhile isJsonWs

/-- Value of one hexadecimal digit (`48 = '0'`, `87 = 'a' - 10`). -/
def hexDigitVal (c : Char) : Option Nat :=
  if c.isDigit then some (c.toNat - 48)
  else
    let l := c.toLower
    if 'a' ≤ l && l ≤ 'f' then some (l.toNat - 87) else none

/-- Parse a `\uXXXX` escape body: four hex digits giving a code unit. -/
def parseHex4 : List Char → Option (Char × List Char)
  | a :: b :: c :: d :: rest =>
    match hexDigitVal a, hexDigitVal b, hexDigitVal c, hexDigitVal d with
    | some va, some vb, some vc, some vd =>
      some (Char.ofNat (4096 * va + 256 * vb + 16 * vc + vd), rest)
    | _, _, _, _ => none
  | _ => none

/-- Parse the body of a JSON string after the opening quote, returning
the decoded characters and the input after the closing quote.  Raw
control characters below `0x20` are a syntax error, and only the JSON
escape set is accepted, as in `JSON.parse`. -/
def parseStringBody : Nat → List Char → Option (List Char × List Char)
  | 0, _ => none
  | _, [] => none
  | fuel + 1, c :: cs =>
    if c == '"' then some ([], cs)
    else if c == '\\' then
      match cs with
      | [] => none
      | e :: cs2 =>
        let esc : Option (Char × List Char) :=
          if e == '"' then some ('"', cs2)
          else if e == '\\' then some ('\\', cs2)
          else if e == '/' then some ('/', cs2)
          else if e == 'b' then some ('\x08', cs2)
          else if e == 'f' then some ('\x0c', cs2)
          else if e == 'n' then some ('\n', cs2)
          else if e == 'r' then some ('\r', cs2)
          else if e == 't' then some ('\t', cs2)
          else if e == 'u' then parseHex4 cs2
          else none
        match esc with
        | none => none
        | some (ch, rest) =>
          match parseStringBody fuel rest with
          | none => none
          | some (s, r) => some (ch :: s, r)
    else if c.toNat < 32 then none
    else
      match parseStringBody fuel cs with
      | none => none
      | some (s, r) => some (c :: s, r)

/-- Split off a leading run of decimal digits. -/
def takeDigits (cs : List Char) : List Char × List Char :=
  cs.span Char.isDigit

/-- Parse a JSON number lexeme per the JSON grammar
`-? (0 | [1-9][0-9]*) frac? exp?`, returning the lexeme characters. -/
def parseNumberLexeme (input : List Char) : Option (List Char × List Char) :=
  let (sign, afterSign) :=
    match input with
    | '-' :: rest => ([('-' : Char)], rest)
    | _ => ([], input)
  match afterSign with
  | [] => none
  | c :: cs =>
    if !c.isDigit then none
    else
      let (intPart, afterInt) :=
        if c == '0' then ([c], cs)
        else
          let (ds, rest) := takeDigits cs
          (c :: ds, rest)
      let (fracPart, afterFrac) :=
        match afterInt with
        | '.' :: fs =>
          let (ds, rest) := takeDigits fs
          if ds.isEmpty then ([], afterInt) else ('.' :: ds, rest)
        | _ => ([], afterInt)
      -- a dot not followed by a digit is a syntax error
      if fracPart.isEmpty && (match afterInt with | '.' :: _ => true | _ => false) then
        none
      else
        match afterFrac with
        | e :: es =>
          if e == 'e' || e == 'E' then
            let (expSign, es2) :=
              match es with
              | '+' :: r => (['+'], r)
              | '-' :: r => (['-'], r)
              | _ => (([] : List Char), es)
            let (ds, rest) := takeDigits es2
            if ds.isEmpty then none
            else some (sign ++ intPart ++ fracPart ++ [e] ++ expSign ++ ds, rest)
          else some (sign ++ intPart ++ fracPart, afterFrac)
        | [] => some (sign ++ intPart ++ fracPart, [])

/-- Insert a key into a JSON object under `JSON.parse` duplicate-key
semantics: a repeated key keeps its first position but takes the later
value. -/
def objInsert (fields : List (String × JVal)) (k : String) (v : JVal) :
    List (String × JVal) :=
  if fields.any (fun p => p.1 == k) then
    fields.map (fun p => if p.1 == k then (k, v) else p)
  else fields ++ [(k, v)]

mutual

/-- Parse one JSON value (leading whitespace allowed), fuel-bounded. -/
def parseValue : Nat → List Char → Option (JVal × List Char)
  | 0, _ => none
  | fuel + 1, cs =>
    match skipWs cs with
    | [] => none
    | c :: rest =>
      if c == '{' then parseObjectBody fuel rest
      else if c == '[' then parseArrayBody fuel rest
      else if c == '"' then
        match parseStringBody (rest.length + 1) rest with
        | none => none
        | some (s, r) => some (.jstr (String.mk s), r)
      else if c == 't' then
        match rest with
        | 'r' :: 'u' :: 'e' :: r => some (.jbool true, r)
        | _ => none
      else if c == 'f' then
        match rest with
        | 'a' :: 'l' :: 's' :: 'e' :: r => some (.jbool false, r)
        | _ => none
      else if c == 'n' then
        match rest with
        | 'u' :: 'l' :: 'l' :: r => some (.jnull, r)
        | _ => none
      else if c == '-' || c.isDigit then
        match parseNumberLexeme (c :: rest) with
        | none => none
        | some (lex, r) => some (.jnum (String.mk lex), r)
      else none

/-- Parse an object body after the opening `{`. -/
def parseObjectBody : Nat → List Char → Option (JVal × List Char)
  | 0, _ => none
  | fuel + 1, cs =>
    match skipWs cs with
    | [] => none
    | c :: rest =>
      if c == '}' then some (.jobj [], rest)
      else parseMembers fuel (c :: rest) []

/-- Parse the members of a nonempty object: `"key" : value (, ...)* }`. -/
def parseMembers : Nat → List Char → List (String × JVal) →
    Option (JVal × List Char)
  | 0, _, _ => none
  | fuel + 1, cs, acc =>
    match skipWs cs with
    | '"' :: rest =>
      match parseStringBody (rest.length + 1) rest with
      | none => none
      | some (k, afterKey) =>
        match skipWs afterKey with
        | ':' :: afterColon =>
          match parseValue fuel afterColon with
          | none => none
          | some (v, afterVal) =>
            let acc2 := objInsert acc (String.mk k) v
            match skipWs afterVal with
            | ',' :: r => parseMembers fuel r acc2
            | '}' :: r => some (.jobj acc2, r)
            | _ => none
        | _ => none
    | _ => none

/-- Parse an array body after the opening `[`. -/
def parseArrayBody : Nat → List Char → Option (JVal × List Char)
  | 0, _ => none
  | fuel + 1, cs =>
    match skipWs cs with
    | [] => none
    | c :: rest =>
      if c == ']' then some (.jarr [], rest)
      else parseElements fuel (c :: rest) []

/-- Parse the elements of a nonempty array: `value (, value)* ]`. -/
def parseElements : Nat → List Char → List JVal → Option (JVal × List Char)
  | 0, _, _ => none
  | fuel + 1, cs, acc =>
    match parseValue fuel cs with
    | none => none
    | some (v, afterVal) =>
      match skipWs afterVal with
      | ',' :: r => parseElements fuel r (acc ++ [v])
      | ']' :: r => some (.jarr (acc ++ [v]), r)
      | _ => none

end

/-- Model of `JSON.parse`: parse one value and require that only
whitespace remains; any violation of the grammar is a thrown
`SyntaxError`, modelled as `none`. -/
def jsonParse (cs : List Char) : Option JVal :=
  match parseValue (2 * cs.length + 2) cs with
  | none => none
  | some (v, rest) => if (skipWs rest).isEmpty then some v else none

/-! ## The brace scanner of `processStreamBuffer` (lines 186–224) -/

/-- `buffer.indexOf('{')`: index of the first `{`, or `none` for `-1`. -/
def indexOfBrace : List Char → Option Nat
  | [] => none
  | c :: cs => if c == '{' then some 0 else (indexOfBrace cs).map (· + 1)

/-- The body of the scanning loop, on the characters from `startIndex`
onward.  `i` is the absolute index of the current character, and
`braceCount`, `inString`, `escapeNext` mirror the loop variables.  The
source checks `char === '"' && !escapeNext`, but on that branch
`escapeNext` is always false (a true flag is consumed by the first
branch), so the test reduces to the quote comparison.  Returns the
absolute `endIndex` where the depth returns to zero, or `none` when the
loop runs off the end of the buffer. -/
def scanSpan : List Char → Nat → Int → Bool → Bool → Option Nat
  | [], _, _, _, _ => none
  | c :: cs, i, braceCount, inString, escapeNext =>
    if escapeNext then scanSpan cs (i + 1) braceCount inString false
    else if c == '\\' then scanSpan cs (i + 1) braceCount inString true
    else if c == '"' then scanSpan cs (i + 1) braceCount (!inString) false
    else if !inString then
      if c == '{' then scanSpan cs (i + 1) (braceCount + 1) inString false
      else if c == '}' then
        if braceCount - 1 == 0 then some i
        else scanSpan cs (i + 1) (braceCount - 1) inString false
      else scanSpan cs (i + 1) braceCount inString false
    else scanSpan cs (i + 1) braceCount inString false

/-- Find the first balanced candidate span: the first `{` (line 186) and
its matching `}` (lines 189–223); `none` when `indexOf` returns `-1` or
the scan finds no matching close. -/
def findSpan (buffer : List Char) : Option (Nat × Nat) :=
  match indexOfBrace buffer with
  | none => none
  | some startIndex =>
    match scanSpan (buffer.drop startIndex) startIndex 0 false false with
    | none => none
    | some endIndex => some (startIndex, endIndex)

/-- `buffer.substring(startIndex, endIndex + 1)`. -/
def spanSlice (buffer : List Char) (startIndex endIndex : Nat) : List Char :=
  (buffer.drop startIndex).take (endIndex + 1 - startIndex)

/-! ## The content extractor `extractContentFromJSON` (lines 305–332) -/

/-- The `imageData` record built at lines 316–319: the raw `data` value
and the mime type (defaulted to `"image/png"` when falsy or absent via
`||`). -/
structure ImageData where
  data : JVal
  mimeType : JVal
deriving Repr

/-- The result record `{ text, imageData }` of `extractContentFromJSON`
(line 306). -/
structure Extracted where
  text : String
  imageData : Option ImageData
deriving Repr

/-- The `else if (part.inlineData && part.inlineData.data)` branch
(lines 315–319): overwrite `result.imageData` with this part's data,
defaulting the mime type. -/
def processInline (acc : Extracted) (part : JVal) : Extracted :=
  match getProp part "inlineData" with
  | none => acc
  | some idata =>
    if truthy idata then
      match getProp idata "data" with
      | none => acc
      | some d =>
        if truthy d then
          let mime :=
            match getProp idata "mimeType" with
            | some m => if truthy m then m else JVal.jstr "image/png"
            | none => JVal.jstr "image/png"
          { acc with imageData := some ⟨d, mime⟩ }
        else acc
    else acc

/-- One iteration of the inner parts loop (lines 312–321): a truthy
`text` property appends (string-coerced) to the accumulated text,
otherwise a truthy `inlineData.data` replaces the image record. -/
def processPart (acc : Extracted) (part : JVal) : Extracted :=
  match getProp part "text" with
  | some t =>
    if truthy t then { acc with text := acc.text ++ jsToString t }
    else processInline acc part
  | none => processInline acc part

/-- One iteration of the candidates loop (lines 310–323).  A candidate
participates only when `candidate.content` and `candidate.content.parts`
are truthy.  `for..of` over an array visits its elements; over a string
it visits one-character strings, none of which has a `text` or
`inlineData` property, so a string contributes nothing; any other truthy
`parts` value is not iterable and throws a `TypeError`. -/
def processCandidate (acc : Extracted) (cand : JVal) : Except String Extracted :=
  match getProp cand "content" with
  | none => .ok acc
  | some content =>
    if truthy content then
      match getProp content "parts" with
      | none => .ok acc
      | some parts =>
        if truthy parts then
          match parts with
          | .jarr ps => .ok (ps.foldl processPart acc)
          | .jstr _ => .ok acc
          | _ => .error "candidate.content.parts is not iterable"
        else .ok acc
    else .ok acc

/-- The candidates loop, threading the accumulator and propagating a
thrown `TypeError`. -/
def processCandidates (cs : List JVal) (acc : Extracted) : Except String Extracted :=
  match cs with
  | [] => .ok acc
  | c :: rest =>
    match processCandidate acc c with
    | .ok acc2 => processCandidates rest acc2
    | .error e => .error e

/-- Whitespace stripped by JS `ToNumber` on a string argument (the
common ASCII set). -/
def isJsWs (c : Char) : Bool :=
  c == ' ' || c == '\t' || c == '\n' || c == '\r' || c == '\x0b' || c == '\x0c'

/-- Whether an unsigned `StrUnsignedDecimalLiteral` is well formed and
denotes a positive value: `Infinity`, or digits (integer part, optional
fraction, optional exponent) with a nonzero mantissa digit; anything
malformed is `NaN`, never greater than zero.  Exponent-driven underflow
of a nonzero mantissa to floating-point zero is below this
integer-level model's resolution, matching `numIsZero` on number
lexemes. -/
def decLiteralPos (cs : List Char) : Bool :=
  if cs == "Infinity".toList then true
  else
    let (intDs, afterInt) := cs.span Char.isDigit
    let (fracDs, afterFrac) :=
      match afterInt with
      | '.' :: fs => fs.span Char.isDigit
      | _ => (([] : List Char), afterInt)
    if intDs.isEmpty && fracDs.isEmpty then false
    else
      let expOk :=
        match afterFrac with
        | [] => true
        | e :: es =>
          (e == 'e' || e == 'E') &&
            (let es2 :=
              match es with
              | '+' :: r => r
              | '-' :: r => r
              | _ => es
             let (expDs, afterExp) := es2.span Char.isDigit
             !expDs.isEmpty && afterExp.isEmpty)
      expOk && (intDs ++ fracDs).any (fun c => c != '0')

/-- Whether a `NonDecimalIntegerLiteral` body (the digits after `0x`,
`0o` or `0b`) is well formed for `base` and denotes a nonzero value. -/
def basePos (base : Nat) (cs : List Char) : Bool :=
  !cs.isEmpty &&
    cs.all (fun c =>
      match hexDigitVal c with
      | some v => v < base
      | none => false) &&
    cs.any (fun c => c != '0')

/-- JS `ToNumber` applied to a string, tested for `> 0`: trim; the
empty remainder is `0`; a leading `-` can never be positive; a `+`
sign admits only the decimal form; `0x`/`0o`/`0b` open unsigned
non-decimal integers; a malformed remainder is `NaN`, which never
compares greater than zero. -/
def strToNumberPos (s : String) : Bool :=
  let t := ((s.toList.dropWhile isJsWs).reverse.dropWhile isJsWs).reverse
  match t with
  | [] => false
  | '-' :: _ => false
  | '+' :: rest => decLiteralPos rest
  | '0' :: x :: rest =>
    if x == 'x' || x == 'X' then basePos 16 rest
    else if x == 'o' || x == 'O' then basePos 8 rest
    else if x == 'b' || x == 'B' then basePos 2 rest
    else decLiteralPos t
  | _ => decLiteralPos t

mutual

/-- One element of `Array.prototype.toString`: `null` contributes the
empty string, nested arrays join recursively, objects print as
`[object Object]`. -/
def jsArrayElemStr : JVal → String
  | .jnull => ""
  | .jbool true => "true"
  | .jbool false => "false"
  | .jnum l => l
  | .jstr s => s
  | .jarr xs => jsArrayJoin xs
  | .jobj _ => "[object Object]"

/-- `Array.prototype.toString`: the comma join of the elements, the
string an array becomes under `ToPrimitive` before a numeric compare. -/
def jsArrayJoin : List JVal → String
  | [] => ""
  | [x] => jsArrayElemStr x
  | x :: xs => jsArrayElemStr x ++ "," ++ jsArrayJoin xs

end

/-- JS `x > 0` where `x` came from a property access (`none` is
`undefined`): a number compares by sign and mantissa, a string or an
array through string-to-number coercion, a boolean as `0`/`1`; `null`
coerces to `0`, `undefined` to `NaN`, and a plain object to the string
`[object Object]` hence `NaN` — none of those is greater than zero. -/
def jsGtZero : Option JVal → Bool
  | none => false
  | some .jnull => false
  | some (.jbool b) => b
  | some (.jnum l) => !(l.startsWith "-") && !numIsZero l
  | some (.jstr s) => strToNumberPos s
  | some (.jarr xs) => strToNumberPos (jsArrayJoin xs)
  | some (.jobj _) => false

/-- The candidates phase of `extractContentFromJSON` (lines 309–324):
the loop runs when `jsonData.candidates` is truthy and its `.length`
property compares greater than zero.  An array then iterates its
elements.  A string's characters are iterated, but a one-character
string has no `text` or `inlineData` property, so the loop has no
effect.  A plain object reaches the loop only through a `length` key
whose numeric coercion is positive, and `for..of` then throws a
TypeError: an object is not iterable.  A truthy number or boolean has
no `length` property, so `undefined > 0` is false and the branch is
skipped. -/
def extractCandidatesPhase (jsonData : JVal) : Except String Extracted :=
  let init : Extracted := ⟨"", none⟩
  match getProp jsonData "candidates" with
  | none => .ok init
  | some cands =>
    if truthy cands then
      match cands with
      | .jarr cs =>
        if cs.length > 0 then processCandidates cs init else .ok init
      | .jstr _ => .ok init
      | .jobj fields =>
        if jsGtZero (fields.lookup "length") then
          .error "jsonData.candidates is not iterable"
        else .ok init
      | _ => .ok init
    else .ok init

/-- `extractContentFromJSON` (lines 305–332): run the candidates phase,
then — only afterwards — check `promptFeedback.blockReason` (lines
327–329) and throw `Request blocked: <reason>` when both are truthy.
The thrown error is the `Except.error` case. -/
def extractContentFromJSON (jsonData : JVal) : Except String Extracted :=
  match extractCandidatesPhase jsonData with
  | .error e => .error e
  | .ok r =>
    match getProp jsonData "promptFeedback" with
    | none => .ok r
    | some pf =>
      if truthy pf then
        match getProp pf "blockReason" with
        | none => .ok r
        | some br =>
          if truthy br then .error ("Request blocked: " ++ jsToString br)
          else .ok r
      else .ok r

/-! ## `processStreamBuffer` (lines 181–271) -/

/-- The observable outcome of one `processStreamBuffer` call.  The
source returns `{ text, remainingBuffer }`; the successfully
deserialized JSON object (the ParsedObject) and the dispatched
image-handling request are surfaced here as explicit outputs, standing
for the internal `jsonData` value and the fire-and-forget
`handleImageData` call at line 240. -/
structure PSBResult where
  parsed : Option JVal
  text : String
  imageData : Option ImageData
  remainingBuffer : List Char
deriving Repr

/-- `processStreamBuffer` (lines 181–271).  At most one balanced span is
examined per call.  On `JSON.parse` failure, or when
`extractContentFromJSON` throws (block reason), the `catch` at line 260
only logs a warning and the buffer is returned unchanged; only after a
fully successful extraction is the consumed span (and everything before
it) removed via `buffer.substring(endIndex + 1)` at line 258. -/
def processStreamBuffer (buffer : List Char) : PSBResult :=
  match findSpan buffer with
  | none => ⟨none, "", none, buffer⟩
  | some (startIndex, endIndex) =>
    let jsonStr := spanSlice buffer startIndex endIndex
    match jsonParse jsonStr with
    | none => ⟨none, "", none, buffer⟩
    | some jsonData =>
      match extractContentFromJSON jsonData with
      | .error _ => ⟨none, "", none, buffer⟩
      | .ok processed =>
        ⟨some jsonData, processed.text, processed.imageData,
          buffer.drop (endIndex + 1)⟩

/-! ## `tryParseCompleteJSON` (lines 276–300) -/

/-- `buffer.trim()`: strip whitespace from both ends (the common ASCII
whitespace set suffices for the inputs this system handles). -/
def trimChars (cs : List Char) : List Char :=
  ((cs.dropWhile isJsonWs).reverse.dropWhile isJsonWs).reverse

/-- Index of the last `}` at or after position `i`, keeping the best
match seen so far. -/
def lastCloseFrom : List Char → Nat → Option Nat → Option Nat
  | [], _, best => best
  | c :: rest, i, best =>
    lastCloseFrom rest (i + 1) (if c == '}' then some i else best)

/-- `buffer.lastIndexOf('}')`. -/
def lastIndexOfClose (cs : List Char) : Option Nat :=
  lastCloseFrom cs 0 none

/-- The `catch` fallback of `tryParseCompleteJSON` (lines 286–297) as
written: it reads `cleaned`, a `const` declared inside the preceding
`try` block and therefore out of scope in the `catch`; evaluating it
throws a `ReferenceError`, which the inner `catch` turns into `null`.
The branch consequently never produces a value. -/
def tryParseFallback : Option JVal := none

/-- `tryParseCompleteJSON` (lines 276–300): trim, return `null` on an
empty buffer, otherwise `JSON.parse` the trimmed text; on a parse error
the dead fallback yields `null`.  Every exception path is caught, so
the function never throws. -/
def tryParseCompleteJSON (buffer : List Char) : Option JVal :=
  let cleaned := trimChars buffer
  if cleaned.isEmpty then none
  else
    match jsonParse cleaned with
    | some v => some v
    | none => tryParseFallback

/-- What the fallback branch of `tryParseCompleteJSON` would compute had
`cleaned` been in scope in the `catch` block: re-parse the substring
from the first `{` to the last `}`.  Used to show the dead branch is
observably dead. -/
def tryParseCompleteJSONIntended (buffer : List Char) : Option JVal :=
  let cleaned := trimChars buffer
  if cleaned.isEmpty then none
  else
    match jsonParse cleaned with
    | some v => some v
    | none =>
      match indexOfBrace cleaned, lastIndexOfClose cleaned with
      | some s, some e =>
        if s < e then jsonParse ((cleaned.drop s).take (e + 1 - s))
        else none
      | _, _ => none

/-! ## The generic recursive walk of `processCompleteResponse`
(lines 337–382) -/

/-- The accumulator of `extractRecursive`: the concatenated text and the
image payloads collected so far, in visit order. -/
structure WalkAcc where
  text : String
  images : List ImageData
deriving Repr

/-- The per-object-node checks of `extractRecursive` (lines 350–361):
a truthy `text` property appends, and a complete truthy
`inlineData.{data,mimeType}` pushes an image payload (no mime default
here, unlike the shaped extractor). -/
def walkNode (fields : List (String × JVal)) (acc : WalkAcc) : WalkAcc :=
  let acc1 :=
    match fields.lookup "text" with
    | some t => if truthy t then { acc with text := acc.text ++ jsToString t } else acc
    | none => acc
  match fields.lookup "inlineData" with
  | some idata =>
    if truthy idata then
      match getProp idata "data", getProp idata "mimeType" with
      | some d, some m =>
        if truthy d && truthy m then
          { acc1 with images := acc1.images ++ [⟨d, m⟩] }
        else acc1
      | _, _ => acc1
    else acc1
  | none => acc1

mutual

/-- `extractRecursive` (lines 341–365): primitives are ignored, arrays
are traversed elementwise, and an object is checked for `text` /
`inlineData` before recursing into all of its property values
(`Object.values`, in key order). -/
def walk : JVal → WalkAcc → WalkAcc
  | .jarr xs, acc => walkList xs acc
  | .jobj fields, acc => walkFields fields (walkNode fields acc)
  | _, acc => acc

/-- `obj.forEach(extractRecursive)` over array elements. -/
def walkList : List JVal → WalkAcc → WalkAcc
  | [], acc => acc
  | x :: xs, acc => walkList xs (walk x acc)

/-- `Object.values(obj).forEach(extractRecursive)`. -/
def walkFields : List (String × JVal) → WalkAcc → WalkAcc
  | [], acc => acc
  | (_, v) :: fs, acc => walkFields fs (walk v acc)

end

/-! ## The streaming session: `streamGenerateContent` handlers
(lines 78–168) -/

/-- The aggregate result of `processCompleteResponse`, reduced to its
observable content: the walked text and the keys assigned to the
persisted images (in walk order). -/
structure CompleteResult where
  text : String
  imageKeys : List Nat
deriving Repr, DecidableEq

/-- `processCompleteResponse` (lines 337–382): run the generic walk,
then persist each collected image in order, awaiting each store; every
store pushes a fresh key onto the session's `cacheKeys` and tags the
image in the result.  `uuidv4()` is modelled by a counter handing out
fresh keys and `cacheService.saveImage` as succeeding (a per-image
failure would only be logged, leaving that image untagged). -/
def processCompleteResponse (completeData : JVal) (cacheKeys : List Nat)
    (nextKey : Nat) : CompleteResult × List Nat × Nat :=
  let acc := walk completeData ⟨"", []⟩
  let keys := (List.range acc.images.length).map (· + nextKey)
  (⟨acc.text, keys⟩, cacheKeys ++ keys, nextKey + acc.images.length)

/-- The events the handlers push through `onChunk`, in delivery order.
`errorEv` is emitted only by the image-persistence failure handler at
line 250; cache writes are modelled as succeeding, and no other line of
the stream handlers emits an `error` event — in particular the
block-reason throw is caught at line 260 and only logged. -/
inductive Event where
  | text (content accumulated : String) (chunkIndex : Nat) (isFinal : Bool)
  | image (key : Nat)
  | errorEv (message : String)
  | imageKeys (keys : List Nat) (count : Nat)
  | complete (result : CompleteResult) (chunkCount : Nat)
  | completion (success : Bool) (totalChunks textLength imageCount : Nat)
deriving Repr, DecidableEq

/-- The per-request state of `streamGenerateContent` (lines 79–83),
extended with the delivered event list, the ParsedObjects the decoder
surfaced, the not-yet-delivered events of late persistence tasks, and
the fresh-key counter. -/
structure SessionState where
  buffer : List Char
  responseText : String
  chunkCount : Nat
  cacheKeys : List Nat
  events : List Event
  lateEvents : List Event
  parsed : List JVal
  nextKey : Nat
deriving Repr

/-- The initial session state. -/
def initSession : SessionState := ⟨[], "", 0, [], [], [], [], 0⟩

/-- One `data` handler invocation (lines 85–105) on `chunk`.  `sched`
decides, per dispatched persistence task (identified by its fresh key),
whether the task completes before the session's end handler (`true`:
its `image` event is delivered right after this handler run and its key
is pushed in time to be counted) or only after the `completion` event
(`false`: its `image` event trails the session, and its late key push
is unobservable).  Both schedules are realizable: the `.then`
continuation of the fire-and-forget `handleImageData` call at line 240
runs whenever the underlying cache write happens to finish. -/
def dataStep (sched : Nat → Bool) (st : SessionState) (chunk : List Char) :
    SessionState :=
  let chunkCount := st.chunkCount + 1
  let buffer := st.buffer ++ chunk
  let r := processStreamBuffer buffer
  let responseText :=
    if r.text.isEmpty then st.responseText else st.responseText ++ r.text
  let textEvents : List Event :=
    if r.text.isEmpty then [] else [.text r.text responseText chunkCount false]
  let (cacheKeys, imageEvents, late, nextKey) :=
    match r.imageData with
    | some _ =>
      if sched st.nextKey then
        (st.cacheKeys ++ [st.nextKey], [Event.image st.nextKey],
          ([] : List Event), st.nextKey + 1)
      else
        (st.cacheKeys, ([] : List Event), [Event.image st.nextKey],
          st.nextKey + 1)
    | none => (st.cacheKeys, ([] : List Event), ([] : List Event), st.nextKey)
  { buffer := r.remainingBuffer
    responseText := responseText
    chunkCount := chunkCount
    cacheKeys := cacheKeys
    events := st.events ++ textEvents ++ imageEvents
    lateEvents := st.lateEvents ++ late
    parsed := st.parsed ++ r.parsed.toList
    nextKey := nextKey }

/-- The residual-buffer flush of the `end` handler (lines 107–133): one
last `processStreamBuffer` pass and a `tryParseCompleteJSON` attempt on
the same residual buffer (the handler never commits
`processed.remainingBuffer`), guarded by `buffer.trim()`.  A
persistence task dispatched from this pass is not awaited before the
`completion` event and is modelled as completing after it. -/
def endFlush (st : SessionState) : SessionState :=
  if (trimChars st.buffer).isEmpty then st
  else
    let r := processStreamBuffer st.buffer
    let responseText :=
      if r.text.isEmpty then st.responseText else st.responseText ++ r.text
    let textEvents : List Event :=
      if r.text.isEmpty then []
      else [.text r.text responseText st.chunkCount true]
    let (late, nextKey) :=
      match r.imageData with
      | some _ => (st.lateEvents ++ [Event.image st.nextKey], st.nextKey + 1)
      | none => (st.lateEvents, st.nextKey)
    let st2 : SessionState :=
      { st with
          responseText := responseText
          events := st.events ++ textEvents
          lateEvents := late
          nextKey := nextKey
          parsed := st.parsed ++ r.parsed.toList }
    match tryParseCompleteJSON st.buffer with
    | some finalData =>
      let (result, cacheKeys2, nextKey2) :=
        processCompleteResponse finalData st2.cacheKeys st2.nextKey
      { st2 with
          cacheKeys := cacheKeys2
          nextKey := nextKey2
          events := st2.events ++ [.complete result st2.chunkCount] }
    | none => st2

/-- Continuation of the `end` handler after the residual-buffer flush:
the `image_keys` event when any keys were cached (lines 136–142), then
the `completion` event (lines 145–151), after which the `image` events
of still-outstanding persistence tasks are appended. -/
def endStep (_sched : Nat → Bool) (st : SessionState) : SessionState :=
  let st1 := endFlush st
  let st3 :=
    if st1.cacheKeys.length > 0 then
      { st1 with
          events := st1.events ++ [.imageKeys st1.cacheKeys st1.cacheKeys.length] }
    else st1
  { st3 with
      events :=
        (st3.events ++
          [.completion true st3.chunkCount st3.responseText.length
            st3.cacheKeys.length]) ++ st3.lateEvents
      lateEvents := [] }

/-- One full decode session: the data handler folded over the chunk
sequence, then the end handler. -/
def runSession (sched : Nat → Bool) (chunks : List (List Char)) : SessionState :=
  endStep sched (chunks.foldl (dataStep sched) initSession)

/-- Event classifiers. -/
def isCompletionEvent : Event → Bool
  | .completion .. => true
  | _ => false

def isErrorEvent : Event → Bool
  | .errorEv _ => true
  | _ => false

def isTextEvent : Event → Bool
  | .text .. => true
  | _ => false

def isImageEvent : Event → Bool
  | .image _ => true
  | _ => false

/-! ## Concrete inputs used by the claims -/

/-- The C9 test vector `{"text":"a \"nested\" } brace"}`. -/
def c9Input : List Char := "\x7b\"text\":\"a \\\"nested\\\" \x7d brace\"\x7d".toList

/-- A balanced but malformed span followed by a well-formed object. -/
def c2Bad : List Char := "\x7bbad\x7d\x7b\"a\":1\x7d".toList

/-- A payload carrying `promptFeedback.blockReason`. -/
def c3Block : List Char := "\x7b\"promptFeedback\":\x7b\"blockReason\":\"SAFETY\"\x7d\x7d".toList

/-- An input on which the dead fallback of `tryParseCompleteJSON` would
have produced a value. -/
def c10Input : List Char := "x\x7b\"a\":1\x7dy".toList

/-- A minimal well-formed JSON object used by the granularity claims. -/
def objB : List Char := "\x7b\"b\":2\x7d".toList

/-- The value `JSON.parse` gives for `objB`. -/
def objBVal : JVal := JVal.jobj [("b", JVal.jnum "2")]

/-- `n` concatenated copies of `objB`. -/
def concatObjs : Nat → List Char
  | 0 => []
  | n + 1 => objB ++ concatObjs n

/-- Split an input into one-byte chunks. -/
def oneByteChunksOf (cs : List Char) : List (List Char) :=
  cs.map (fun c => [c])

/-- A minimal well-formed object used by the chunking-invariance claim. -/
def c1Obj : List Char := "\x7b\"a\":1\x7d".toList

/-- A shaped object whose single part is a text part `"A"`. -/
def candA : List Char :=
  "\x7b\"candidates\":[\x7b\"content\":\x7b\"parts\":[\x7b\"text\":\"A\"\x7d]\x7d\x7d]\x7d".toList

/-- A shaped object whose single part is a text part `"B"`. -/
def candB : List Char :=
  "\x7b\"candidates\":[\x7b\"content\":\x7b\"parts\":[\x7b\"text\":\"B\"\x7d]\x7d\x7d]\x7d".toList

/-- The value `JSON.parse` gives for `candB`. -/
def candBVal : JVal :=
  JVal.jobj [("candidates", JVal.jarr [JVal.jobj [("content",
    JVal.jobj [("parts", JVal.jarr [JVal.jobj [("text", JVal.jstr "B")]])])]])]

/-- A shaped object carrying one `inlineData` part. -/
def c4Img : List Char :=
  "\x7b\"candidates\":[\x7b\"content\":\x7b\"parts\":[\x7b\"inlineData\":\x7b\"data\":\"QUJD\",\"mimeType\":\"image/png\"\x7d\x7d]\x7d\x7d]\x7d".toList

/-- A shaped object with two text parts and two `inlineData` parts. -/
def c7Input : List Char :=
  "\x7b\"candidates\":[\x7b\"content\":\x7b\"parts\":[\x7b\"text\":\"A\"\x7d,\x7b\"inlineData\":\x7b\"data\":\"I1\"\x7d\x7d,\x7b\"text\":\"B\"\x7d,\x7b\"inlineData\":\x7b\"data\":\"I2\"\x7d\x7d]\x7d\x7d]\x7d".toList

/-- The value `JSON.parse` gives for `c7Input`. -/
def c7Val : JVal :=
  JVal.jobj [("candidates", JVal.jarr [JVal.jobj [("content", JVal.jobj [("parts",
    JVal.jarr [JVal.jobj [("text", JVal.jstr "A")],
      JVal.jobj [("inlineData", JVal.jobj [("data", JVal.jstr "I1")])],
      JVal.jobj [("text", JVal.jstr "B")],
      JVal.jobj [("inlineData", JVal.jobj [("data", JVal.jstr "I2")])]])])]])]

/-! ## Spec-side readings of the shaped extractor, for comparison with
`extractContentFromJSON` -/

/-- The image request a part's `inlineData` would contribute, mirroring
the guards of `processInline`. -/
def partInlineOf (p : JVal) : Option ImageData :=
  match getProp p "inlineData" with
  | none => none
  | some idata =>
    if truthy idata then
      match getProp idata "data" with
      | none => none
      | some d =>
        if truthy d then
          some ⟨d,
            match getProp idata "mimeType" with
            | some m => if truthy m then m else JVal.jstr "image/png"
            | none => JVal.jstr "image/png"⟩
        else none
    else none

/-- The text a part contributes (its truthy `text` property, coerced). -/
def partTextOf (p : JVal) : Option String :=
  match getProp p "text" with
  | some t => if truthy t then some (jsToString t) else none
  | none => none

/-- The image request a part contributes: only a part whose `text` is
falsy reaches the `inlineData` branch. -/
def partImageOf (p : JVal) : Option ImageData :=
  match getProp p "text" with
  | some t => if truthy t then none else partInlineOf p
  | none => partInlineOf p

/-- The parts a candidate contributes, mirroring the guards of
`processCandidate` (a non-array `parts` contributes none). -/
def candPartsOf (cand : JVal) : List JVal :=
  match getProp cand "content" with
  | none => []
  | some content =>
    if truthy content then
      match getProp content "parts" with
      | none => []
      | some parts =>
        if truthy parts then
          match parts with
          | .jarr ps => ps
          | _ => []
        else []
    else []

/-- Whether a candidate avoids the non-iterable-`parts` TypeError. -/
def candOk (cand : JVal) : Bool :=
  match getProp cand "content" with
  | none => true
  | some content =>
    if truthy content then
      match getProp content "parts" with
      | none => true
      | some parts =>
        if truthy parts then
          match parts with
          | .jarr _ => true
          | .jstr _ => true
          | _ => false
        else true
    else true

/-- The candidates the extractor iterates. -/
def candidatesOf (v : JVal) : List JVal :=
  match getProp v "candidates" with
  | some (.jarr cs) => if cs.length > 0 then cs else []
  | _ => []

/-- Whether the candidates check itself avoids the `for..of` TypeError:
the only throwing shape is a plain object whose `length` key coerces
to a positive number. -/
def candidatesIterOk (v : JVal) : Bool :=
  match getProp v "candidates" with
  | some (.jobj fields) => !jsGtZero (fields.lookup "length")
  | _ => true

/-- A shaped object whose candidates loop completes without throwing:
the candidates value itself is iterable (or the loop is skipped), and
every iterated candidate has iterable parts. -/
def shapedOk (v : JVal) : Bool :=
  candidatesIterOk v && (candidatesOf v).all candOk

/-- Absence of a truthy `promptFeedback.blockReason`. -/
def noBlockReason (v : JVal) : Bool :=
  match getProp v "promptFeedback" with
  | none => true
  | some pf =>
    if truthy pf then
      match getProp pf "blockReason" with
      | none => true
      | some br => !truthy br
    else true

/-- Concatenation of the text contributions of a list of parts. -/
def textsConcat : List JVal → String
  | [] => ""
  | p :: ps =>
    (match partTextOf p with | some s => s | none => "") ++ textsConcat ps

/-- The image request of the last inline-bearing part, later parts
overwriting earlier ones. -/
def lastImageOf (ps : List JVal) (acc : Option ImageData) : Option ImageData :=
  ps.foldl (fun a p => match partImageOf p with | some i => some i | none => a) acc

/-- The single merged text of a shaped object. -/
def shapedText (v : JVal) : String :=
  textsConcat ((candidatesOf v).flatMap candPartsOf)

/-- The single surviving image request of a shaped object. -/
def shapedImage (v : JVal) : Option ImageData :=
  lastImageOf ((candidatesOf v).flatMap candPartsOf) none

/-! ## C8 — buffer atomicity -/

/-- C8: for every feed, removal of bytes from the accumulating buffer is
committed only after a successful extraction — and then exactly the
extracted span and the bytes before it are removed — while a call in
which extraction fails (no span, parse error, or a thrown block reason)
returns the buffer unchanged, with no partial commit. -/
theorem c8_buffer_atomicity (buffer : List Char) :
    (processStreamBuffer buffer).remainingBuffer = buffer ∨
    ∃ s e v ex, findSpan buffer = some (s, e) ∧
      jsonParse (spanSlice buffer s e) = some v ∧
      extractContentFromJSON v = Except.ok ex ∧
      (processStreamBuffer buffer).parsed = some v ∧
      (processStreamBuffer buffer).remainingBuffer = buffer.drop (e + 1) := by
  rcases hf : findSpan buffer with _ | ⟨s, e⟩
  · left; simp [processStreamBuffer, hf]
  · rcases hp : jsonParse (spanSlice buffer s e) with _ | v
    · left; simp [processStreamBuffer, hf, hp]
    · rcases hx : extractContentFromJSON v with msg | ex
      · left; simp [processStreamBuffer, hf, hp, hx]
      · right
        exact ⟨s, e, v, ex, rfl, hp, hx, by simp [processStreamBuffer, hf, hp, hx],
          by simp [processStreamBuffer, hf, hp, hx]⟩

/-! ## C2 — malformed spans are kept, not skipped -/

/-- C2 (amended): when the decoder finds a brace-balanced span whose
JSON deserialization fails, it returns the buffer unchanged — the span
is not discarded and scanning does not resume after it — and nothing is
emitted for it; the failure is only logged, never surfaced as a session
error. -/
theorem c2_parse_failure_keeps_buffer (buffer : List Char) (s e : Nat)
    (hspan : findSpan buffer = some (s, e))
    (hfail : jsonParse (spanSlice buffer s e) = none) :
    processStreamBuffer buffer = ⟨none, "", none, buffer⟩ := by
  simp [processStreamBuffer, hspan, hfail]

/-- Witness for C2 (amended) at the concrete malformed buffer. -/
theorem c2_parse_failure_keeps_buffer_witness :
    processStreamBuffer c2Bad = ⟨none, "", none, c2Bad⟩ :=
  c2_parse_failure_keeps_buffer c2Bad 0 4 rfl rfl

/-- C2 (counterexample): after the malformed span `{bad}` the decoder
does not resynchronize — across a whole session the later well-formed
object `{"a":1}` in the same buffer is never extracted (no ParsedObject
is produced), and the residual buffer still holds both spans. -/
theorem c2_counterexample :
    (runSession (fun _ => true) ["\x7bbad\x7d".toList, "\x7b\"a\":1\x7d".toList]).parsed.length = 0 ∧
    (runSession (fun _ => true) ["\x7bbad\x7d".toList, "\x7b\"a\":1\x7d".toList]).buffer = c2Bad ∧
    jsonParse ("\x7b\"a\":1\x7d".toList) = some (JVal.jobj [("a", JVal.jnum "1")]) :=
  ⟨rfl, rfl, rfl⟩

/-! ## C3 — block reason: no ErrorSignal is emitted -/

/-- C3 (amended): a ParsedObject carrying a truthy
`promptFeedback.blockReason` makes `extractContentFromJSON` throw
`Request blocked: <reason>`; `processStreamBuffer` catches the throw,
emits no event at all from the object — no ErrorSignal, no TextDelta,
no image-handling request — and leaves the buffer unchanged, so the
session continues. -/
theorem c3_block_reason_swallowed (buffer : List Char) (s e : Nat)
    (v pf br : JVal) (acc : Extracted)
    (hspan : findSpan buffer = some (s, e))
    (hparse : jsonParse (spanSlice buffer s e) = some v)
    (hcands : extractCandidatesPhase v = Except.ok acc)
    (hpf : getProp v "promptFeedback" = some pf) (hpft : truthy pf = true)
    (hbr : getProp pf "blockReason" = some br) (hbrt : truthy br = true) :
    extractContentFromJSON v = Except.error ("Request blocked: " ++ jsToString br) ∧
    processStreamBuffer buffer = ⟨none, "", none, buffer⟩ := by
  have hx : extractContentFromJSON v =
      Except.error ("Request blocked: " ++ jsToString br) := by
    simp [extractContentFromJSON, hcands, hpf, hpft, hbr, hbrt]
  exact ⟨hx, by simp [processStreamBuffer, hspan, hparse, hx]⟩

/-- Witness for C3 (amended) at the concrete blocked payload. -/
theorem c3_block_reason_swallowed_witness :
    extractContentFromJSON
        (JVal.jobj [("promptFeedback", JVal.jobj [("blockReason", JVal.jstr "SAFETY")])]) =
      Except.error ("Request blocked: " ++ jsToString (JVal.jstr "SAFETY")) ∧
    processStreamBuffer c3Block = ⟨none, "", none, c3Block⟩ :=
  c3_block_reason_swallowed c3Block 0 42
    (JVal.jobj [("promptFeedback", JVal.jobj [("blockReason", JVal.jstr "SAFETY")])])
    (JVal.jobj [("blockReason", JVal.jstr "SAFETY")]) (JVal.jstr "SAFETY")
    ⟨"", none⟩ rfl rfl rfl rfl rfl rfl rfl

/-- C3 (counterexample): a session fed exactly one blocked payload
emits zero error events (the claim demands exactly one carrying the
reason), zero text and zero image events; the delivered sequence is the
generic-walk `complete` event followed by a successful `completion`. -/
theorem c3_counterexample :
    (runSession (fun _ => true) [c3Block]).events =
      [Event.complete ⟨"", []⟩ 1, Event.completion true 1 0 0] ∧
    (runSession (fun _ => true) [c3Block]).events.countP isErrorEvent = 0 :=
  ⟨rfl, rfl⟩

/-! ## C9 — in-string brace and escape handling -/

/-- C9: feeding the single input `{"text":"a \"nested\" } brace"}`
extracts exactly one whole ParsedObject — the quoted `}` and the
escaped quotes do not terminate the scan early — whose `text` field is
the string `a "nested" } brace`, and the whole input is consumed. -/
theorem c9_in_string_brace_handling :
    (runSession (fun _ => true) [c9Input]).parsed =
      [JVal.jobj [("text", JVal.jstr "a \"nested\" \x7d brace")]] ∧
    (runSession (fun _ => true) [c9Input]).buffer = [] :=
  ⟨rfl, rfl⟩

/-! ## C10 — totality and dead fallback of `tryParseCompleteJSON` -/

/-- C10: `tryParseCompleteJSON` never throws and equals `JSON.parse` of
the trimmed input when that succeeds and `null` otherwise; its fallback
branch never produces a result (the `cleaned` binding is out of scope
there and the `ReferenceError` is swallowed), whereas the fallback as
intended would succeed on the concrete input `x{"a":1}y`. -/
theorem c10_tryParse_parse_or_null :
    (∀ buffer, tryParseCompleteJSON buffer =
      if (trimChars buffer).isEmpty then none else jsonParse (trimChars buffer)) ∧
    tryParseCompleteJSON c10Input = none ∧
    tryParseCompleteJSONIntended c10Input = some (JVal.jobj [("a", JVal.jnum "1")]) := by
  refine ⟨fun buffer => ?_, rfl, rfl⟩
  by_cases he : (trimChars buffer).isEmpty
  · simp [tryParseCompleteJSON, he]
  · rcases h : jsonParse (trimChars buffer) with _ | v <;>
      simp [tryParseCompleteJSON, tryParseFallback, he, h]

/-! ## Projection lemmas for the session steps -/

/-- Each data-handler call appends at most the one object its
`processStreamBuffer` call extracted. -/
theorem dataStep_parsed (sched : Nat → Bool) (st : SessionState) (c : List Char) :
    (dataStep sched st c).parsed =
      st.parsed ++ (processStreamBuffer (st.buffer ++ c)).parsed.toList := by
  unfold dataStep
  rcases h : (processStreamBuffer (st.buffer ++ c)).imageData with _ | d <;> simp [h]

/-- The buffer after a data-handler call is the remaining buffer its
`processStreamBuffer` call returned. -/
theorem dataStep_buffer (sched : Nat → Bool) (st : SessionState) (c : List Char) :
    (dataStep sched st c).buffer =
      (processStreamBuffer (st.buffer ++ c)).remainingBuffer := by
  unfold dataStep
  rcases h : (processStreamBuffer (st.buffer ++ c)).imageData with _ | d <;> simp [h]

/-- The end-handler flush appends at most one extracted object, and only
when the residual buffer is nonblank. -/
theorem endFlush_parsed (st : SessionState) :
    (endFlush st).parsed =
      st.parsed ++ (if (trimChars st.buffer).isEmpty then []
        else (processStreamBuffer st.buffer).parsed.toList) := by
  unfold endFlush
  by_cases he : (trimChars st.buffer).isEmpty
  · simp [he]
  · simp only [he, if_false, Bool.false_eq_true, ite_false]
    rcases h : (processStreamBuffer st.buffer).imageData with _ | d <;>
      simp only [h] <;>
        rcases ht : tryParseCompleteJSON st.buffer with _ | fd <;> simp [ht]

/-- The tail of the end handler adds no ParsedObjects. -/
theorem endStep_parsed (sched : Nat → Bool) (st : SessionState) :
    (endStep sched st).parsed = (endFlush st).parsed := by
  unfold endStep
  by_cases hc : (endFlush st).cacheKeys.length > 0 <;> simp [hc]

/-! ## Lemmas about the concrete object `objB` -/

/-- On a buffer beginning with `objB` the decoder extracts exactly that
first object, whatever follows. -/
theorem psb_objB (rest : List Char) :
    processStreamBuffer (objB ++ rest) = ⟨some objBVal, "", none, rest⟩ := rfl

/-- A buffer starting with `{` does not trim to blank. -/
theorem trim_brace_cons (tail : List Char) :
    (trimChars ('{' :: tail)).isEmpty = false := by
  have h1 : List.dropWhile isJsonWs ('{' :: tail) = '{' :: tail := by
    simp [List.dropWhile_cons, isJsonWs]
  unfold trimChars
  rw [h1]
  rw [Bool.eq_false_iff]
  intro hcontra
  rw [List.isEmpty_iff, List.reverse_eq_nil_iff, List.dropWhile_eq_nil_iff] at hcontra
  have hmem : ('{' : Char) ∈ ('{' :: tail).reverse := by simp
  have := hcontra _ hmem
  simp [isJsonWs] at this

/-- Feeding `objB` to a session whose buffer is empty extracts exactly
one ParsedObject and leaves the buffer empty again. -/
theorem dataStep_objB (sched : Nat → Bool) (st : SessionState) (h : st.buffer = []) :
    (dataStep sched st objB).buffer = [] ∧
    (dataStep sched st objB).parsed = st.parsed ++ [objBVal] := by
  have hb := dataStep_buffer sched st objB
  have hp := dataStep_parsed sched st objB
  rw [h] at hb hp
  have hpsb : processStreamBuffer ([] ++ objB) = ⟨some objBVal, "", none, []⟩ := by
    have := psb_objB []
    simpa using this
  rw [hpsb] at hb hp
  exact ⟨hb, hp⟩

/-- Feeding `n` copies of `objB`, one per chunk, extracts `n`
ParsedObjects. -/
theorem dataPhase_objB (sched : Nat → Bool) :
    ∀ (n : Nat) (st : SessionState), st.buffer = [] →
      ((List.replicate n objB).foldl (dataStep sched) st).parsed.length =
        st.parsed.length + n ∧
      ((List.replicate n objB).foldl (dataStep sched) st).buffer = [] := by
  intro n
  induction n with
  | zero => intro st h; simp [h]
  | succ k ih =>
    intro st h
    rw [List.replicate_succ, List.foldl_cons]
    obtain ⟨hb, hp⟩ := dataStep_objB sched st h
    obtain ⟨ih1, ih2⟩ := ih _ hb
    refine ⟨?_, ih2⟩
    rw [ih1, hp]
    simp
    omega

/-! ## C1 — chunking invariance -/

/-- C1 (counterexample): the input made of three concatenated copies of
`{"a":1}` yields two ParsedObjects when fed as a single chunk but three
when fed as three chunks, so splitting the same input differently
changes the decoded sequence. -/
theorem c1_chunking_counterexample :
    (runSession (fun _ => true) [c1Obj ++ c1Obj ++ c1Obj]).parsed.length = 2 ∧
    (runSession (fun _ => true) [c1Obj, c1Obj, c1Obj]).parsed.length = 3 :=
  ⟨rfl, rfl⟩

/-- C1 (amended): chunking invariance fails in general because each
`processStreamBuffer` call examines at most one balanced span — a
session fed any input as a single chunk surfaces at most two
ParsedObjects (one from the data handler, at most one from the
end-of-stream pass), while finer chunkings can surface more. -/
theorem c1_single_feed_bound (sched : Nat → Bool) (input : List Char) :
    (runSession sched [input]).parsed.length ≤ 2 := by
  have h1 : (runSession sched [input]).parsed.length =
      (endFlush (dataStep sched initSession input)).parsed.length := by
    unfold runSession
    simp [endStep_parsed]
  rw [h1, endFlush_parsed, dataStep_parsed]
  have h2 : ∀ o : Option JVal, o.toList.length ≤ 1 := by
    intro o; cases o <;> simp
  have h3 : (initSession.parsed).length = 0 := rfl
  simp only [List.length_append]
  have := h2 (processStreamBuffer (initSession.buffer ++ input)).parsed
  have := h2 (processStreamBuffer (dataStep sched initSession input).buffer).parsed
  by_cases he : (trimChars (dataStep sched initSession input).buffer).isEmpty <;>
    simp [he, h3] <;> omega

/-! ## C5 — completeness on well-formed input -/

set_option maxRecDepth 4000 in
/-- C5 (counterexample): three concatenated well-formed objects decode
to only two ParsedObjects when delivered as a single chunk, though
one-byte delivery of the same input yields all three — the count is not
independent of chunk granularity. -/
theorem c5_counterexample :
    (runSession (fun _ => true) [concatObjs 3]).parsed.length = 2 ∧
    (runSession (fun _ => true) (oneByteChunksOf (concatObjs 3))).parsed.length = 3 ∧
    jsonParse objB = some objBVal :=
  ⟨rfl, rfl, rfl⟩

/-- C5 (amended): for `N ≥ 1` concatenated copies of a well-formed
object, the number of ParsedObjects depends on granularity: delivered
one object per chunk the decoder emits exactly `N`, while the whole
input as a single chunk emits `min N 2`. -/
theorem c5_granularity (sched : Nat → Bool) (n : Nat) :
    (runSession sched (List.replicate (n + 1) objB)).parsed.length = n + 1 ∧
    (runSession sched [concatObjs (n + 1)]).parsed.length = min (n + 1) 2 := by
  constructor
  · unfold runSession
    obtain ⟨h1, h2⟩ := dataPhase_objB sched (n + 1) initSession rfl
    rw [endStep_parsed, endFlush_parsed, h2]
    have htr : (trimChars ([] : List Char)).isEmpty = true := rfl
    rw [htr]
    simp only [if_true, List.append_nil]
    rw [h1]
    simp [initSession]
  · unfold runSession
    simp only [List.foldl_cons, List.foldl_nil]
    have hd1 : (dataStep sched initSession (concatObjs (n + 1))).parsed = [objBVal] := by
      rw [dataStep_parsed]
      show (initSession.parsed ++
        (processStreamBuffer ([] ++ (objB ++ concatObjs n))).parsed.toList) = _
      rw [List.nil_append, psb_objB]
      rfl
    have hd2 : (dataStep sched initSession (concatObjs (n + 1))).buffer = concatObjs n := by
      rw [dataStep_buffer]
      show (processStreamBuffer ([] ++ (objB ++ concatObjs n))).remainingBuffer = _
      rw [List.nil_append, psb_objB]
    rw [endStep_parsed, endFlush_parsed, hd1, hd2]
    cases n with
    | zero => simp [concatObjs, trimChars]
    | succ m =>
      have htr : (trimChars (concatObjs (m + 1))).isEmpty = false :=
        trim_brace_cons ("\"b\":2\x7d".toList ++ concatObjs m)
      rw [htr]
      have hps : processStreamBuffer (concatObjs (m + 1)) =
          ⟨some objBVal, "", none, concatObjs m⟩ :=
        psb_objB (concatObjs m)
      rw [hps]
      simp [Nat.min_def]

/-! ## C7 — per-part extraction lemmas -/

/-- Unfolding equation for `textsConcat`. -/
theorem textsConcat_cons (p : JVal) (ps : List JVal) :
    textsConcat (p :: ps) =
      (match partTextOf p with | some s => s | none => "") ++ textsConcat ps := rfl

/-- Unfolding equation for `lastImageOf`. -/
theorem lastImageOf_cons (p : JVal) (ps : List JVal) (a : Option ImageData) :
    lastImageOf (p :: ps) a =
      lastImageOf ps (match partImageOf p with | some i => some i | none => a) := rfl

/-- `processInline` only ever overwrites the image slot, with the value
`partInlineOf` describes. -/
theorem processInline_eq (acc : Extracted) (p : JVal) :
    processInline acc p =
      ⟨acc.text, match partInlineOf p with | some i => some i | none => acc.imageData⟩ := by
  unfold processInline partInlineOf
  rcases h : getProp p "inlineData" with _ | idata
  · rfl
  · by_cases ht : truthy idata
    · simp only [ht, if_true]
      rcases hd : getProp idata "data" with _ | d
      · rfl
      · by_cases htd : truthy d <;> simp [htd]
    · simp [ht]

/-- One loop iteration appends the part's text contribution and
overwrites the image slot with its image contribution, if any. -/
theorem processPart_eq (acc : Extracted) (p : JVal) :
    processPart acc p =
      ⟨(match partTextOf p with | some s => acc.text ++ s | none => acc.text),
       match partImageOf p with | some i => some i | none => acc.imageData⟩ := by
  unfold processPart partTextOf partImageOf
  rcases h : getProp p "text" with _ | t
  · rw [processInline_eq]
  · by_cases ht : truthy t
    · simp [ht]
    · simp only [ht, if_false, Bool.false_eq_true, ite_false]
      rw [processInline_eq]

/-- The parts loop concatenates every text contribution into one string
and keeps only the last image contribution. -/
theorem foldl_processPart (ps : List JVal) (acc : Extracted) :
    ps.foldl processPart acc =
      ⟨acc.text ++ textsConcat ps, lastImageOf ps acc.imageData⟩ := by
  induction ps generalizing acc with
  | nil => simp [textsConcat, lastImageOf, String.append_empty]
  | cons p ps ih =>
    rw [List.foldl_cons, ih, processPart_eq, textsConcat_cons, lastImageOf_cons]
    rcases hT : partTextOf p with _ | s <;>
      rcases hI : partImageOf p with _ | i <;>
        simp [hT, hI, String.append_assoc, String.append_empty]

/-- A candidate that does not throw contributes exactly its
`candPartsOf` parts, folded through the loop. -/
theorem processCandidate_eq (acc : Extracted) (cand : JVal) (h : candOk cand = true) :
    processCandidate acc cand = .ok ((candPartsOf cand).foldl processPart acc) := by
  unfold candOk at h
  unfold processCandidate candPartsOf
  rcases hc : getProp cand "content" with _ | content
  · rfl
  · rw [hc] at h
    by_cases htc : truthy content
    · simp only [htc, if_true] at h ⊢
      rcases hp : getProp content "parts" with _ | parts
      · rfl
      · rw [hp] at h
        by_cases htp : truthy parts
        · simp only [htp, if_true] at h ⊢
          cases parts <;> simp_all
        · simp [htp]
    · simp [htc]

/-- The candidates loop without a throw is the fold of the per-candidate
parts folds. -/
theorem processCandidates_eq (cs : List JVal) (acc : Extracted)
    (h : cs.all candOk = true) :
    processCandidates cs acc =
      .ok (cs.foldl (fun a c => (candPartsOf c).foldl processPart a) acc) := by
  induction cs generalizing acc with
  | nil => rfl
  | cons c cs ih =>
    simp only [List.all_cons, Bool.and_eq_true] at h
    unfold processCandidates
    simp only [processCandidate_eq acc c h.1]
    rw [List.foldl_cons]
    exact ih _ h.2

/-- Folding candidate-by-candidate equals folding over the flattened
parts list. -/
theorem foldl_over_bind (cs : List JVal) (acc : Extracted) :
    cs.foldl (fun a c => (candPartsOf c).foldl processPart a) acc =
      (cs.flatMap candPartsOf).foldl processPart acc := by
  induction cs generalizing acc with
  | nil => rfl
  | cons c cs ih =>
    rw [List.flatMap_cons, List.foldl_append, List.foldl_cons]
    exact ih _

/-- The candidates phase of a well-shaped object produces the single
merged text and the last surviving image request. -/
theorem extractCandidatesPhase_eq (v : JVal) (h : shapedOk v = true) :
    extractCandidatesPhase v = .ok ⟨shapedText v, shapedImage v⟩ := by
  unfold shapedOk at h
  rw [Bool.and_eq_true] at h
  obtain ⟨hIter, hAll⟩ := h
  unfold candidatesIterOk at hIter
  unfold candidatesOf at hAll
  unfold extractCandidatesPhase shapedText shapedImage candidatesOf
  rcases hc : getProp v "candidates" with _ | cands
  · simp [textsConcat, lastImageOf]
  · rw [hc] at hIter hAll
    cases cands with
    | jarr cs =>
      by_cases hl : cs.length > 0
      · simp only [hl, if_true] at hAll ⊢
        simp only [truthy, if_true]
        rw [processCandidates_eq cs _ hAll, foldl_over_bind]
        rw [foldl_processPart]
        simp [String.empty_append]
      · simp only [hl] at hAll ⊢
        simp [truthy, textsConcat, lastImageOf]
    | jobj fields =>
      simp only [Bool.not_eq_true'] at hIter
      simp [truthy, hIter, textsConcat, lastImageOf]
    | jnull => simp [truthy, textsConcat, lastImageOf]
    | jbool b => cases b <;> simp [truthy, textsConcat, lastImageOf]
    | jnum l =>
      by_cases ht : truthy (JVal.jnum l) <;> simp [ht, textsConcat, lastImageOf]
    | jstr s =>
      by_cases ht : truthy (JVal.jstr s) <;> simp [ht, textsConcat, lastImageOf]

/-- C7 (amended): for every shaped ParsedObject whose candidates loop
completes without throwing — the candidates value is iterable or the
loop is skipped (in particular, candidates is not a plain object whose
`length` key coerces positive), and every iterated candidate's parts
are iterable — and that carries no block reason, extraction merges all
text parts (across all candidates) into a single text result — so the
object yields at most one TextDelta, not one per part — and keeps only
the last inlineData part, so at most one image-handling request is
dispatched per object. -/
theorem c7_merged_extraction (v : JVal) (h1 : shapedOk v = true)
    (h2 : noBlockReason v = true) :
    extractContentFromJSON v = .ok ⟨shapedText v, shapedImage v⟩ := by
  unfold extractContentFromJSON
  rw [extractCandidatesPhase_eq v h1]
  unfold noBlockReason at h2
  rcases hpf : getProp v "promptFeedback" with _ | pf
  · rfl
  · rw [hpf] at h2
    by_cases htpf : truthy pf
    · simp only [htpf, if_true] at h2 ⊢
      rcases hbr : getProp pf "blockReason" with _ | br
      · rfl
      · rw [hbr] at h2
        simp only [Bool.not_eq_true'] at h2
        simp [h2]
    · simp [htpf]

/-- Witness for C7 (amended) at the two-text, two-image object. -/
theorem c7_merged_extraction_witness :
    extractContentFromJSON c7Val =
      .ok ⟨"AB", some ⟨JVal.jstr "I2", JVal.jstr "image/png"⟩⟩ :=
  c7_merged_extraction c7Val rfl rfl

set_option maxRecDepth 4000 in
/-- C7 (counterexample): the object `c7Val` has two text parts and two
inlineData parts, yet a session decoding it delivers exactly one text
event (carrying the merged `"AB"`) and dispatches exactly one
image-handling request (for the second image), not two of each. -/
theorem c7_counterexample :
    jsonParse c7Input = some c7Val ∧
    ((candidatesOf c7Val).flatMap candPartsOf).countP
      (fun p => (partTextOf p).isSome) = 2 ∧
    ((candidatesOf c7Val).flatMap candPartsOf).countP
      (fun p => (partInlineOf p).isSome) = 2 ∧
    (runSession (fun _ => false) [c7Input]).events.countP isTextEvent = 1 ∧
    (runSession (fun _ => false) [c7Input]).events.countP isImageEvent = 1 :=
  ⟨rfl, rfl, rfl, rfl, rfl⟩

/-! ## C4 — completion ordering and join -/

/-- A data-handler call emits no `completion` events, early or late. -/
theorem dataStep_completions (sched : Nat → Bool) (st : SessionState) (c : List Char) :
    ((dataStep sched st c).events.countP isCompletionEvent =
      st.events.countP isCompletionEvent) ∧
    ((dataStep sched st c).lateEvents.countP isCompletionEvent =
      st.lateEvents.countP isCompletionEvent) := by
  unfold dataStep
  rcases h : (processStreamBuffer (st.buffer ++ c)).imageData with _ | d <;>
    by_cases htx : (processStreamBuffer (st.buffer ++ c)).text.isEmpty <;>
      by_cases hs : sched st.nextKey <;>
        simp [h, htx, hs, List.countP_append, List.countP_cons, isCompletionEvent]

/-- The end-handler flush emits no `completion` events. -/
theorem endFlush_completions (st : SessionState) :
    ((endFlush st).events.countP isCompletionEvent =
      st.events.countP isCompletionEvent) ∧
    ((endFlush st).lateEvents.countP isCompletionEvent =
      st.lateEvents.countP isCompletionEvent) := by
  unfold endFlush
  by_cases he : (trimChars st.buffer).isEmpty
  · simp [he]
  · simp only [he, Bool.false_eq_true, ite_false, if_false]
    rcases h : (processStreamBuffer st.buffer).imageData with _ | d <;>
      by_cases htx : (processStreamBuffer st.buffer).text.isEmpty <;>
        rcases ht : tryParseCompleteJSON st.buffer with _ | fd <;>
          simp [h, htx, ht, List.countP_append, List.countP_cons, isCompletionEvent]

/-- The tail of the end handler emits exactly one `completion` event. -/
theorem endStep_completions (sched : Nat → Bool) (st : SessionState) :
    (endStep sched st).events.countP isCompletionEvent =
      (endFlush st).events.countP isCompletionEvent +
        (endFlush st).lateEvents.countP isCompletionEvent + 1 := by
  unfold endStep
  by_cases hc : (endFlush st).cacheKeys.length > 0 <;>
    simp [hc, List.countP_append, List.countP_cons, isCompletionEvent] <;> omega

/-- The whole data phase emits no `completion` events. -/
theorem dataPhase_completions (sched : Nat → Bool) :
    ∀ (chunks : List (List Char)) (st : SessionState),
      ((chunks.foldl (dataStep sched) st).events.countP isCompletionEvent =
        st.events.countP isCompletionEvent) ∧
      ((chunks.foldl (dataStep sched) st).lateEvents.countP isCompletionEvent =
        st.lateEvents.countP isCompletionEvent) := by
  intro chunks
  induction chunks with
  | nil => intro st; exact ⟨rfl, rfl⟩
  | cons c cs ih =>
    intro st
    rw [List.foldl_cons]
    obtain ⟨h1, h2⟩ := dataStep_completions sched st c
    obtain ⟨ih1, ih2⟩ := ih (dataStep sched st c)
    exact ⟨by rw [ih1, h1], by rw [ih2, h2]⟩

set_option maxRecDepth 4000 in
/-- C4 (counterexample): for the one-image input, the schedule on which
the fire-and-forget persistence task resolves only after the end
handler delivers the session exactly as `completion` followed by the
`image` event — the image event does not precede the completion event,
which reports `imageCount = 0` though one artifact was produced; an
early-resolving schedule of the same input instead counts the image.
Both interleavings are reachable, so the claimed ordering and join do
not hold. -/
theorem c4_counterexample :
    (runSession (fun _ => false) [c4Img]).events =
      [Event.completion true 1 0 0, Event.image 0] ∧
    (runSession (fun _ => true) [c4Img]).events =
      [Event.image 0, Event.imageKeys [0] 1, Event.completion true 1 0 1] :=
  ⟨rfl, rfl⟩

/-- C4 (amended): the `completion` event is emitted exactly once per
session, but it is not a join point: `image` events of fire-and-forget
persistence tasks may be delivered after it, and its `imageCount`
reflects only the tasks whose keys were pushed before the end handler
ran. -/
theorem c4_completion_exactly_once (sched : Nat → Bool) (chunks : List (List Char)) :
    (runSession sched chunks).events.countP isCompletionEvent = 1 := by
  unfold runSession
  rw [endStep_completions]
  obtain ⟨h1, h2⟩ := dataPhase_completions sched chunks initSession
  obtain ⟨g1, g2⟩ := endFlush_completions (chunks.foldl (dataStep sched) initSession)
  rw [g1, g2, h1, h2]
  rfl

/-! ## C6 — the generic walk reprocesses shaped objects -/

/-- When the residual buffer is nonblank and parses as complete JSON,
the flush emits the `complete` event built from the generic walk of
that value. -/
theorem endFlush_complete_mem (st : SessionState) (v : JVal)
    (he : (trimChars st.buffer).isEmpty = false)
    (ht : tryParseCompleteJSON st.buffer = some v) :
    ∃ ks, Event.complete ⟨(walk v ⟨"", []⟩).text, ks⟩ st.chunkCount ∈
      (endFlush st).events := by
  unfold endFlush
  simp only [he, Bool.false_eq_true, ite_false, if_false, ht]
  rcases h : (processStreamBuffer st.buffer).imageData with _ | d <;>
    simp [h, processCompleteResponse, List.mem_append]

/-- Events of the flush survive into the delivered event sequence. -/
theorem endStep_events_mono (sched : Nat → Bool) (st : SessionState) (e : Event)
    (h : e ∈ (endFlush st).events) : e ∈ (endStep sched st).events := by
  unfold endStep
  by_cases hc : (endFlush st).cacheKeys.length > 0 <;>
    simp [hc, List.mem_append] <;> tauto

/-- C6 (amended): during the finalize pass the generic recursive walk is
applied to whatever residual buffer parses as complete JSON, even when
the shaped interpretation has just successfully processed an object
from that same buffer in the same pass: the end handler then both
surfaces the shaped ParsedObject and emits the `complete` event built
by the generic walk of the same residue — the two walks are not
mutually exclusive. -/
theorem c6_generic_walk_reprocesses (sched : Nat → Bool) (st : SessionState)
    (v w : JVal)
    (he : (trimChars st.buffer).isEmpty = false)
    (ht : tryParseCompleteJSON st.buffer = some v)
    (hw : (processStreamBuffer st.buffer).parsed = some w) :
    w ∈ (endStep sched st).parsed ∧
    ∃ ks, Event.complete ⟨(walk v ⟨"", []⟩).text, ks⟩ st.chunkCount ∈
      (endStep sched st).events := by
  constructor
  · rw [endStep_parsed, endFlush_parsed, he]
    simp [hw]
  · obtain ⟨ks, hks⟩ := endFlush_complete_mem st v he ht
    exact ⟨ks, endStep_events_mono sched st _ hks⟩

/-- Witness for C6 (amended) at a session state holding the residual
shaped object `candB`. -/
theorem c6_generic_walk_reprocesses_witness :
    candBVal ∈ (endStep (fun _ => true) ⟨candB, "", 1, [], [], [], [], 0⟩).parsed ∧
    ∃ ks, Event.complete ⟨(walk candBVal ⟨"", []⟩).text, ks⟩ 1 ∈
      (endStep (fun _ => true) ⟨candB, "", 1, [], [], [], [], 0⟩).events :=
  c6_generic_walk_reprocesses (fun _ => true) ⟨candB, "", 1, [], [], [], [], 0⟩
    candBVal candBVal rfl rfl rfl

set_option maxRecDepth 4000 in
/-- C6 (counterexample): a session fed the two shaped objects `A` and
`B` as one chunk extracts `A` in the data phase and `B` in the end
pass (shaped interpretation, the final text event), and then the
generic walk also processes the very same residual object `B`: the
`complete` event carries the walk's text `"B"` although the shaped walk
already emitted it. -/
theorem c6_counterexample :
    (runSession (fun _ => true) [candA ++ candB]).events =
      [Event.text "A" "A" 1 false, Event.text "B" "AB" 1 true,
        Event.complete ⟨"B", []⟩ 1, Event.completion true 1 2 0] ∧
    (walk candBVal ⟨"", []⟩).text = "B" :=
  ⟨rfl, rfl⟩
